import Mathlib

/-!
Verification of the record lifecycle / comparator subsystem of the repository.

The embedded code (shallow embedding, translated from the source files):
* `src/tools/convert_tests/scenarios/c_to_cpp_basic/source_repo/main.c` and
  `item.h`: the `Item` struct (`int id; char name[50]; float value;`) with
  `create_item`, `print_item`, `free_item`, `compare_items`, and the `qsort`
  call ordering an array of items by `compare_items`.
* `src/sample_project/math_utils.cpp`: `math_utils::divide`.
* `src/tools/convert_tests/scenarios/cpp_to_c_lowering_basic/source_repo/main.cpp`:
  `Calculator::divide` and `Calculator::getSequence`.

Modelling conventions: C `int` values are mathematical integers constrained to
the signed 32-bit range where it matters, with two's-complement wraparound
(`wrap32`) applied where the machine subtraction can overflow; C strings are
lists of characters containing no null byte; the `float`/`double` payloads are
modelled as rationals (every floating-point constant appearing in the source is
exactly representable, and the claims never depend on rounding of an inexact
operation); heap allocation success is an explicit boolean input; output to
stdout is the list of lines written.
-/

/-- The null character, modelling the C string terminator byte. -/
def nulChar : Char := Char.ofNat 0

/-- `Item` from `item.h`: `int id; char name[50]; float value;`.  `id` carries
the mathematical value of the 32-bit signed field, `name` holds the bytes of
the 50-byte character buffer, `value` models the `float` payload. -/
structure Item where
  id : Int
  name : List Char
  value : ℚ
deriving DecidableEq

/-- Two's-complement wraparound of a mathematical integer into the signed
32-bit range, modelling the result of C `int` arithmetic. -/
def wrap32 (x : Int) : Int := (x + 2 ^ 31) % 2 ^ 32 - 2 ^ 31

/-- `compare_items` from `main.c`: `return item_a->id - item_b->id;` — the
subtraction is C `int` subtraction, hence wraps on overflow. -/
def compare_items (a b : Item) : Int := wrap32 (a.id - b.id)

/-- The value of a C `int` lies in the signed 32-bit range. -/
abbrev IsInt32 (n : Int) : Prop := -(2 ^ 31) ≤ n ∧ n < 2 ^ 31

/-- A record whose id is the most negative 32-bit integer. -/
def itemLoId : Item := ⟨-(2 ^ 31), [], 0⟩

/-- A record whose id is `1`. -/
def itemHiId : Item := ⟨1, [], 0⟩

/-- Size in bytes of the `name` buffer of `Item` (`char name[50]`). -/
def nameCap : Nat := 50

/-- `strncpy(dest, src, n)` into a fresh buffer: at most `n` characters of the
source C string (modelled as a list with no null byte) are copied, and when the
source is shorter than `n` the remaining bytes are filled with null. -/
def strncpyBuf (src : List Char) (n : Nat) : List Char :=
  src.take n ++ List.replicate (n - src.length) nulChar

/-- The `name` buffer produced by `create_item`:
`strncpy(item->name, name, sizeof(item->name) - 1)` followed by
`item->name[sizeof(item->name) - 1] = 0`. -/
def storeName (src : List Char) : List Char :=
  strncpyBuf src (nameCap - 1) ++ [nulChar]

/-- Reading a C string out of a character buffer: the bytes before the first
null terminator. -/
def cString (buf : List Char) : List Char := buf.takeWhile (fun c => c ≠ nulChar)

/-- `create_item` from `main.c`: `malloc` either yields storage or fails — the
`allocOk` argument records which.  On success every field is assigned (name via
`storeName`); on failure nothing is written and `NULL` is returned. -/
def create_item (allocOk : Bool) (id : Int) (name : List Char) (value : ℚ) :
    Option Item :=
  if allocOk then
    some { id := id, name := storeName name, value := value }
  else
    none

/-- Rendering of `printf("%.2f", v)` for the `float` payload: the value
rounded to hundredths (round half up — exact on every value the program
prints, whose hundredths are integral) with two digits after the point.  The
program never prints a negative value, so only the non-negative rendering is
modelled. -/
def fmt2 (q : ℚ) : String :=
  let n : Int := Rat.floor (q * 100 + 1 / 2)
  toString (n / 100) ++ "." ++
    (if n % 100 < 10 then "0" ++ toString (n % 100) else toString (n % 100))

/-- The line `printf("ID: %d, Name: %s, Value: %.2f\n", ...)` writes for a
live record. -/
def itemLine (it : Item) : String :=
  "ID: " ++ toString it.id ++ ", Name: " ++ String.mk (cString it.name) ++
    ", Value: " ++ fmt2 it.value

/-- `print_item` from `main.c`: the lines written to stdout.  The null check
makes a null handle print nothing. -/
def print_item : Option Item → List String
  | none => []
  | some it => [itemLine it]

/-- `free_item` from `main.c`: the deallocations performed.  The null check
makes `free` run only on a non-null handle, so a null handle deallocates
nothing and reports no error. -/
def free_item : Option Item → List Item
  | none => []
  | some it => [it]

/-- One `print_item` call on a live record: the record is reached through a
`const Item*` and no field is assigned, so the call yields the output lines
together with the unchanged record state. -/
def print_item_call (it : Item) : List String × Item :=
  (print_item (some it), it)

/-- `n` successive `print_item` calls on the same live record, threading the
record state through: the outputs of each call and the final record state. -/
def print_item_calls : Nat → Item → List (List String) × Item
  | 0, it => ([], it)
  | n + 1, it =>
    let r := print_item_call it
    let rest := print_item_calls n r.2
    (r.1 :: rest.1, rest.2)

namespace math_utils

/-- `math_utils::divide` from `math_utils.cpp`: if `b != 0` it returns `a / b`,
otherwise it raises `std::runtime_error("Division by zero")` and returns no
value.  The shared `double` division of the two helpers is modelled by
rational division. -/
def divide (a b : ℚ) : Except String ℚ :=
  if b ≠ 0 then Except.ok (a / b) else Except.error "Division by zero"

end math_utils

namespace Calculator

/-- `Calculator::divide` from `main.cpp`: if `b != 0` it returns `a / b`,
otherwise it writes an error line to stderr and returns `0.0` without
raising. -/
def divide (a b : ℚ) : ℚ :=
  if b ≠ 0 then a / b else 0

/-- The loop of `Calculator::getSequence`:
`for (int i = start; i < end; i++) result.push_back(i);`, with the number of
remaining iterations as structural fuel (the loop index rises by one each
iteration, so the iteration count is `end - start` when positive). -/
def seqLoop : Nat → Int → List Int
  | 0, _ => []
  | n + 1, i => i :: seqLoop n (i + 1)

/-- `Calculator::getSequence(start, end)` from `main.cpp`. -/
def getSequence (start stop : Int) : List Int :=
  seqLoop (stop - start).toNat start

end Calculator

/-- One insertion step of a comparator-driven sort: place `x` before the first
element `y` with `compare_items x y <= 0`.  Together with `sortItems` this
models the generic comparator-driven sort that the `qsort` call in `main.c`
performs on the item array. -/
def insertItem (x : Item) : List Item → List Item
  | [] => [x]
  | y :: ys => if compare_items x y ≤ 0 then x :: y :: ys else y :: insertItem x ys

/-- Comparator-driven sort of a record collection, using `compare_items` as
the ordering exactly as the `qsort(items, 3, sizeof(Item), compare_items)`
call does. -/
def sortItems : List Item → List Item
  | [] => []
  | x :: xs => insertItem x (sortItems xs)

/-- The three records of Scenario B, created with ids `[3, 1, 2]`. -/
def scenarioItems : List Item :=
  [⟨3, [], 3⟩, ⟨1, [], 1⟩, ⟨2, [], 2⟩]

/-- A two-record collection whose id difference overflows the comparator. -/
def overflowItems : List Item :=
  [⟨1, [], 0⟩, ⟨-(2 ^ 31), [], 0⟩]

/-- When the true difference of the two ids fits in a signed 32-bit integer,
the comparator returns exactly that difference. -/
theorem compare_items_eq_sub (a b : Item) (h : |a.id - b.id| < 2 ^ 31) :
    compare_items a b = a.id - b.id := by
  rw [abs_lt] at h
  simp only [compare_items, wrap32]
  omega

/-- C1 counterexample: the claim asserts the three-way contract for all signed
machine integers, but `compare_items` computes the difference with wrapping
`int` subtraction.  At `a.id = -2^31 < b.id = 1` the subtraction overflows and
the comparator returns a positive value instead of a negative one. -/
theorem compare_items_cex :
    itemLoId.id < itemHiId.id ∧ 0 < compare_items itemLoId itemHiId := by
  constructor
  · decide
  · decide

/-- C1 (amended): for 32-bit ids, `compare_items a b = 0` iff the ids are
equal; and whenever the true difference `a.id - b.id` itself fits in the
signed 32-bit range (no overflow), the comparator is negative iff
`a.id < b.id`, positive iff `a.id > b.id`, and antisymmetric:
`compare_items a b = -compare_items b a`. -/
theorem compare_items_threeway (a b : Item)
    (ha : IsInt32 a.id) (hb : IsInt32 b.id) :
    (compare_items a b = 0 ↔ a.id = b.id) ∧
    (|a.id - b.id| < 2 ^ 31 →
      (compare_items a b < 0 ↔ a.id < b.id) ∧
      (0 < compare_items a b ↔ b.id < a.id) ∧
      compare_items a b = -compare_items b a) := by
  obtain ⟨ha1, ha2⟩ := ha
  obtain ⟨hb1, hb2⟩ := hb
  constructor
  · simp only [compare_items, wrap32]
    omega
  · intro h
    have h1 := compare_items_eq_sub a b h
    have h2 : |b.id - a.id| < 2 ^ 31 := by rw [abs_sub_comm]; exact h
    have h3 := compare_items_eq_sub b a h2
    rw [abs_lt] at h
    refine ⟨?_, ?_, ?_⟩ <;> omega

/-- Witness for C1 (amended) at ids `3` and `1`: the comparator is positive. -/
theorem compare_items_threeway_witness :
    0 < compare_items ⟨3, [], 0⟩ ⟨1, [], 0⟩ := by
  have h := compare_items_threeway ⟨3, [], 0⟩ ⟨1, [], 0⟩ (by decide) (by decide)
  exact (h.2 (by decide)).2.1.mpr (by decide)

/-- C10: the comparator reads only the `id` fields of its arguments — records
agreeing on ids compare identically, whatever their names and values. -/
theorem compare_items_depends_only_on_id (a b a2 b2 : Item)
    (hA : a.id = a2.id) (hB : b.id = b2.id) :
    compare_items a b = compare_items a2 b2 := by
  simp only [compare_items, hA, hB]

/-- Witness for C10 at ids `5` and `7` with differing names and values. -/
theorem compare_items_depends_only_on_id_witness :
    compare_items ⟨5, ['a'], 1⟩ ⟨7, [], 2⟩ = compare_items ⟨5, [], 3⟩ ⟨7, ['b'], 4⟩ :=
  compare_items_depends_only_on_id _ _ _ _ rfl rfl

theorem takeWhile_append_nul {l : List Char} (t : List Char)
    (h : ∀ c ∈ l, c ≠ nulChar) :
    (l ++ nulChar :: t).takeWhile (fun c => c ≠ nulChar) = l := by
  induction l with
  | nil =>
    simp only [List.nil_append]
    rw [List.takeWhile_cons_of_neg (by simp)]
  | cons c cs ih =>
    have hc : c ≠ nulChar := h c (by simp)
    simp only [List.cons_append]
    rw [List.takeWhile_cons_of_pos (by simp [hc]),
      ih (fun d hd => h d (by simp [hd]))]

/-- The buffer written by `create_item` decomposes as the truncated source
followed by a null byte and null padding. -/
theorem storeName_decomp (src : List Char) :
    storeName src =
      src.take (nameCap - 1) ++
        nulChar :: List.replicate (nameCap - 1 - src.length) nulChar := by
  simp only [storeName, strncpyBuf, List.append_assoc]
  rw [← List.replicate_succ' (nameCap - 1 - src.length) nulChar,
    List.replicate_succ]

/-- The stored C string is the source truncated to 49 characters. -/
theorem storeName_cString (src : List Char) (h : nulChar ∉ src) :
    cString (storeName src) = src.take (nameCap - 1) := by
  rw [cString, storeName_decomp]
  exact takeWhile_append_nul _ (fun c hc => by
    intro heq
    exact h (heq ▸ List.mem_of_mem_take hc))

/-- The buffer written by `create_item` is exactly 50 bytes long. -/
theorem storeName_length (src : List Char) : (storeName src).length = nameCap := by
  simp only [storeName, strncpyBuf, List.length_append, List.length_take,
    List.length_replicate, List.length_cons, List.length_nil, nameCap]
  omega

/-- The buffer written by `create_item` holds a null byte right after the
stored string, inside the 50-byte buffer. -/
theorem storeName_terminated (src : List Char) (h : nulChar ∉ src) :
    (storeName src)[(cString (storeName src)).length]? = some nulChar := by
  rw [storeName_cString src h, storeName_decomp]
  rw [List.getElem?_append_right le_rfl]
  simp

/-- C2: for a source name of length `L` (a C string, hence null-free), the
stored name has length exactly `min L 49`, the truncated source is stored (so
over-length names are truncated, never rejected — `create_item` still succeeds
whenever allocation does), and the stored name is null-terminated inside the
fixed 50-byte buffer. -/
theorem create_name_trunc (src : List Char) (h : nulChar ∉ src) :
    cString (storeName src) = src.take (nameCap - 1) ∧
    (cString (storeName src)).length = min src.length (nameCap - 1) ∧
    (storeName src).length = nameCap ∧
    (storeName src)[(cString (storeName src)).length]? = some nulChar ∧
    ∀ (allocOk : Bool) (id : Int) (v : ℚ),
      create_item allocOk id src v = none ↔ allocOk = false := by
  refine ⟨storeName_cString src h, ?_, storeName_length src,
    storeName_terminated src h, ?_⟩
  · rw [storeName_cString src h, List.length_take, Nat.min_comm]
  · intro allocOk id v
    cases allocOk <;> simp [create_item]

/-- Witness for C2 on the 4-character name `Test`. -/
theorem create_name_trunc_witness :
    cString (storeName ['T', 'e', 's', 't']) = ['T', 'e', 's', 't'] ∧
    (cString (storeName ['T', 'e', 's', 't'])).length = 4 := by
  have h := create_name_trunc ['T', 'e', 's', 't'] (by decide)
  exact ⟨by rw [h.1]; decide, by rw [h.2.1]; decide⟩

/-- C4: `create_item` returns `NULL` exactly when allocation fails; on success
the returned record is fully populated — `id` and `value` are stored as given
and the name field holds the (possibly truncated) given name. -/
theorem create_item_spec (allocOk : Bool) (id : Int) (nm : List Char) (v : ℚ) :
    (create_item allocOk id nm v = none ↔ allocOk = false) ∧
    ∀ it : Item, create_item allocOk id nm v = some it →
      it.id = id ∧ it.name = storeName nm ∧ it.value = v ∧
      (nulChar ∉ nm → cString it.name = nm.take (nameCap - 1)) := by
  refine ⟨by cases allocOk <;> simp [create_item], ?_⟩
  intro it hit
  cases allocOk with
  | false => simp [create_item] at hit
  | true =>
    simp only [create_item, if_pos, Option.some.injEq] at hit
    subst hit
    exact ⟨rfl, rfl, rfl, fun h => storeName_cString nm h⟩

/-- Witness for C4: creating with id 1, name `Hi`, value 2 succeeds and stores
the given fields. -/
theorem create_item_spec_witness :
    ∃ it : Item, create_item true 1 ['H', 'i'] 2 = some it ∧
      it.id = 1 ∧ it.value = 2 ∧ cString it.name = ['H', 'i'] := by
  have h := (create_item_spec true 1 ['H', 'i'] 2).2
  refine ⟨⟨1, storeName ['H', 'i'], 2⟩, rfl, ?_⟩
  have h2 := h ⟨1, storeName ['H', 'i'], 2⟩ rfl
  exact ⟨h2.1, h2.2.2.1, by rw [h2.2.2.2 (by decide)]; decide⟩

/-- C5: presenting a null handle writes no output, and releasing a null handle
performs no deallocation — both are silent no-ops. -/
theorem null_handles_noop :
    print_item none = [] ∧ free_item none = [] := ⟨rfl, rfl⟩

/-- C6: `print_item` is read-only — after any number `n` of calls on a live
record the record's fields are unchanged, and every call produced the same
output as a single `print_item` on the original record. -/
theorem print_item_readonly (it : Item) (n : Nat) :
    (print_item_calls n it).2 = it ∧
    (print_item_calls n it).1 = List.replicate n (print_item (some it)) := by
  induction n with
  | zero => exact ⟨rfl, rfl⟩
  | succ n ih =>
    simp only [print_item_calls, print_item_call, List.replicate_succ]
    exact ⟨ih.1, by rw [ih.2]⟩

/-- `Rat.floor` agrees with the floor of the ordered field `ℚ`. -/
theorem ratFloor_eq_intFloor (q : ℚ) : Rat.floor q = ⌊q⌋ := by
  rw [Rat.floor_def, Rat.floor_def']

/-- C7 (Scenario A): `create_item(1, "Test Item", 42.5)` followed by
`print_item` reports id `1`, name `Test Item`, and the value formatted to two
decimals as `42.50`.  (`42.5` is exactly representable as a `float`, written
here as the rational `85 / 2`.) -/
theorem scenarioA_output :
    print_item (create_item true 1
        ['T', 'e', 's', 't', ' ', 'I', 't', 'e', 'm'] (85 / 2)) =
      ["ID: 1, Name: Test Item, Value: 42.50"] := by
  have hfloor : Rat.floor ((85 / 2 : ℚ) * 100 + 1 / 2) = 4250 := by
    rw [ratFloor_eq_intFloor, Int.floor_eq_iff]
    constructor
    · norm_num
    · norm_num
  simp only [print_item, create_item, if_pos, itemLine, fmt2]
  rw [hfloor]
  decide

/-- The loop collects the consecutive integers starting at its index. -/
theorem seqLoop_eq (n : Nat) :
    ∀ s : Int, Calculator.seqLoop n s = (List.range n).map (fun k : Nat => s + (k : Int)) := by
  induction n with
  | zero => intro s; rfl
  | succ n ih =>
    intro s
    rw [List.range_succ_eq_map]
    simp only [Calculator.seqLoop, ih (s + 1), List.map_cons, List.map_map]
    congr 1
    · simp
    · apply List.map_congr_left
      intro k _
      simp only [Function.comp_apply]
      push_cast
      ring

/-- C8: the two division helpers agree on every non-zero divisor, where both
return `a / b`; at divisor `0` they diverge — `math_utils::divide` raises the
`Division by zero` error and returns no value, while `Calculator::divide`
returns `0` without raising. -/
theorem divide_helpers_agree (a b : ℚ) :
    (b ≠ 0 →
      math_utils.divide a b = Except.ok (a / b) ∧ Calculator.divide a b = a / b) ∧
    math_utils.divide a 0 = Except.error "Division by zero" ∧
    Calculator.divide a 0 = 0 := by
  refine ⟨fun h => ⟨?_, ?_⟩, ?_, ?_⟩
  · simp [math_utils.divide, h]
  · simp [Calculator.divide, h]
  · simp [math_utils.divide]
  · simp [Calculator.divide]

/-- Witness for C8 at `10 / 2`: both helpers return `5`. -/
theorem divide_helpers_agree_witness :
    math_utils.divide 10 2 = Except.ok 5 ∧ Calculator.divide 10 2 = 5 := by
  have h := (divide_helpers_agree 10 2).1 (by norm_num)
  constructor
  · rw [h.1]
    norm_num
  · rw [h.2]
    norm_num

/-- C9: `Calculator::getSequence(start, end)` returns exactly the consecutive
integers `[start, start + 1, ..., end - 1]`, and in particular the empty list
whenever `start ≥ end`. -/
theorem getSequence_spec (s e : Int) :
    Calculator.getSequence s e =
      (List.range (e - s).toNat).map (fun k : Nat => s + (k : Int)) ∧
    (s ≥ e → Calculator.getSequence s e = []) := by
  constructor
  · exact seqLoop_eq (e - s).toNat s
  · intro h
    have h0 : (e - s).toNat = 0 := by omega
    rw [Calculator.getSequence, h0]
    rfl

/-- Witness for C9: `getSequence(1, 5) = [1, 2, 3, 4]` and
`getSequence(5, 3) = []`. -/
theorem getSequence_spec_witness :
    Calculator.getSequence 1 5 = [1, 2, 3, 4] ∧ Calculator.getSequence 5 3 = [] := by
  constructor
  · rw [(getSequence_spec 1 5).1]
    decide
  · exact (getSequence_spec 5 3).2 (by norm_num)

/-- Inserting into a list permutes consing onto it. -/
theorem insertItem_perm (x : Item) (l : List Item) :
    List.Perm (insertItem x l) (x :: l) := by
  induction l with
  | nil => rfl
  | cons y ys ih =>
    simp only [insertItem]
    by_cases h : compare_items x y ≤ 0
    · rw [if_pos h]
    · rw [if_neg h]
      exact (ih.cons y).trans (List.Perm.swap x y ys)

/-- The comparator-driven sort permutes its input. -/
theorem sortItems_perm (l : List Item) : List.Perm (sortItems l) l := by
  induction l with
  | nil => rfl
  | cons x xs ih => exact (insertItem_perm x (sortItems xs)).trans (ih.cons x)

/-- Inserting a record whose id difference with every list element stays in
the 32-bit range preserves sortedness by id. -/
theorem insertItem_sorted (x : Item) (l : List Item)
    (hx : ∀ y ∈ l, |x.id - y.id| < 2 ^ 31)
    (hl : l.Sorted (fun a b : Item => a.id ≤ b.id)) :
    (insertItem x l).Sorted (fun a b : Item => a.id ≤ b.id) := by
  induction l with
  | nil => simp [insertItem]
  | cons y ys ih =>
    rw [List.sorted_cons] at hl
    simp only [insertItem]
    have hsub := compare_items_eq_sub x y (hx y (by simp))
    by_cases h : compare_items x y ≤ 0
    · rw [if_pos h, List.sorted_cons]
      have hxy : x.id ≤ y.id := by omega
      refine ⟨?_, List.sorted_cons.mpr hl⟩
      intro b hb
      rcases List.mem_cons.mp hb with rfl | hb2
      · exact hxy
      · exact le_trans hxy (hl.1 b hb2)
    · rw [if_neg h, List.sorted_cons]
      have hyx : y.id ≤ x.id := by omega
      refine ⟨?_, ih (fun z hz => hx z (by simp [hz])) hl.2⟩
      intro b hb
      rcases List.mem_cons.mp ((insertItem_perm x ys).mem_iff.mp hb) with rfl | hb2
      · exact hyx
      · exact hl.1 b hb2

/-- C3 counterexample: sorting with `compare_items` does not always produce
non-decreasing ids.  On records with ids `[1, -2^31]` the wrapped comparator
deems the order `1, -2^31` sorted, so the sort returns the ids in strictly
decreasing order. -/
theorem sortItems_cex :
    (sortItems overflowItems).map Item.id = [1, -(2 ^ 31)] ∧
    ¬ (sortItems overflowItems).Sorted (fun a b : Item => a.id ≤ b.id) := by
  constructor
  · decide
  · decide

/-- C3 (amended): on any collection of records whose pairwise id differences
stay within the signed 32-bit range (so the comparator never overflows),
sorting via `compare_items` yields a permutation of the input whose ids are
non-decreasing from left to right. -/
theorem sortItems_correct (l : List Item)
    (h : ∀ x ∈ l, ∀ y ∈ l, |x.id - y.id| < 2 ^ 31) :
    List.Perm (sortItems l) l ∧
      (sortItems l).Sorted (fun a b : Item => a.id ≤ b.id) := by
  refine ⟨sortItems_perm l, ?_⟩
  induction l with
  | nil => simp [sortItems]
  | cons x xs ih =>
    simp only [sortItems]
    apply insertItem_sorted
    · intro y hy
      have hy2 : y ∈ xs := (sortItems_perm xs).mem_iff.mp hy
      exact h x (by simp) y (by simp [hy2])
    · exact ih (fun a ha b hb => h a (by simp [ha]) b (by simp [hb]))

/-- Witness for C3 (amended), Scenario B: records created with ids
`[3, 1, 2]` sort to a permutation with ids `[1, 2, 3]` in that order. -/
theorem sortItems_correct_witness :
    (List.Perm (sortItems scenarioItems) scenarioItems ∧
      (sortItems scenarioItems).Sorted (fun a b : Item => a.id ≤ b.id)) ∧
    (sortItems scenarioItems).map Item.id = [1, 2, 3] :=
  ⟨sortItems_correct scenarioItems (by decide), by decide⟩
